import Mathlib

/-
Verification of the winleap window-switching tool.

The development shallowly embeds the pure logic of the repository's C and
shell sources:
  - winleap.c: config parsing (read_config_file, parse_bool,
    parse_instance_keys), mark lookup, window discovery and scoping,
    explicit instance selection (select_instance_interactively) and the
    exit-code logic of main;
  - atsw.c (prefix mode): compute_prefixes, find_match and the per-key
    step of the interactive matching loop;
  - grab_keys.c / the grab_keyboard functions: the bounded-retry
    keyboard-grab loop with integer backoff;
  - atsw_manual.c: the cycle-to-next instance resolution of main.

C strings are modelled as List Char (no NUL, no fixed-size buffer caps of
the C arrays; the 127-character cap of parse_instance_keys, which is an
explicit checked error in the C, is kept).  Machine integers that matter
(backoff delays in microseconds, mark numbers against INT_MAX) are Nat/Int
with the C's truncating arithmetic written out.
-/

/- ===== Definitions ===== -/

/-- ASCII lowercase conversion, the model of C tolower in the C locale:
bytes 65..90 map to 97..122, everything else is unchanged. -/
def asciiLower (c : Char) : Char :=
  if 65 ≤ c.toNat ∧ c.toNat ≤ 90 then Char.ofNat (c.toNat + 32) else c

/-- Model of strncasecmp(a, b, n) == 0: the first n characters agree
case-insensitively (comparison of C strings stops at the terminator, which
for NUL-free strings is exactly List.take n on both sides). -/
def strncaseEq (n : Nat) (a b : List Char) : Bool :=
  ((a.take n).map asciiLower) == ((b.take n).map asciiLower)

/-- Model of strcasecmp(a, b) == 0: full case-insensitive equality. -/
def caseEq (a b : List Char) : Bool :=
  (a.map asciiLower) == (b.map asciiLower)

/-- Abbreviation turning a string literal into the List Char model. -/
def toL (s : String) : List Char := s.toList

/-- One round of the inner uniqueness check of compute_prefixes: the
candidate length L distinguishes cls from every other group's class,
i.e. strncasecmp(app_class, other, prefix_len) != 0 for all others. -/
def isUniqueAt (others : List (List Char)) (cls : List Char) (L : Nat) : Bool :=
  others.all (fun b => !(strncaseEq L cls b))

/-- The search loop of compute_prefixes, starting at candidate length L
with the given number of lengths still to try.  When every length fails
the C for-loop leaves prefix_len = app_len + 1, which here is L plus the
exhausted fuel. -/
def prefixLenFrom (others : List (List Char)) (cls : List Char) : Nat → Nat → Nat
  | L, 0 => L
  | L, fuel + 1 =>
    if isUniqueAt others cls L then L else prefixLenFrom others cls (L + 1) fuel

/-- The prefix length compute_prefixes settles on for a group with class
cls among the other groups' classes: the smallest L in 1..len(cls) that is
unique, and len(cls) + 1 when no such L exists. -/
def prefixLen (others : List (List Char)) (cls : List Char) : Nat :=
  prefixLenFrom others cls 1 cls.length

/-- The sequence assigned to a single-instance group: the first prefixLen
characters of the class (strncpy copies the whole class when prefix_len
ran past its end). -/
def appSeq (others : List (List Char)) (cls : List Char) : List Char :=
  cls.take (prefixLen others cls)

/-- Decimal rendering of the 1-based instance number, the %d of the
snprintf in compute_prefixes. -/
def instDigits (k : Nat) : List Char := (toString k).toList

/-- The sequences compute_prefixes assigns to one app group of n windows:
a single window keeps the group prefix, several windows each get the group
prefix followed by their 1-based discovery-order number. -/
def groupSeqs (others : List (List Char)) (cls : List Char) (n : Nat) : List (List Char) :=
  if n = 1 then [cls.take (prefixLen others cls)]
  else (List.range n).map (fun w => cls.take (prefixLen others cls) ++ instDigits (w + 1))

/-- Grouping of compute_prefixes: distinct lowercase classes in first
discovery order (a window of a seen class joins its group, a new class
appends a group). -/
def groupClasses (clss : List (List Char)) : List (List Char) :=
  clss.foldl (fun acc c => if c ∈ acc then acc else acc ++ [c]) []

/-- The full prefix index computed from the discovery-ordered list of
(already lowercased) window classes: every group's assigned sequences, in
group order.  Each group is checked against all other groups; groupClasses
yields pairwise-distinct classes, so excluding by value matches the C's
exclusion of the group's own index. -/
def computeIndex (clss : List (List Char)) : List (List Char) :=
  let gs := groupClasses clss
  gs.flatMap (fun g => groupSeqs (gs.filter (fun h => h ≠ g)) g (clss.count g))

/-- The candidate indices find_match collects for a buffer: the window
positions whose assigned prefix starts (case-insensitively) with the
buffer, via strncasecmp(prefix, buffer, strlen(buffer)). -/
def candIdx (ps : List (List Char)) (buf : List Char) : List Nat :=
  (List.range ps.length).filter (fun i => strncaseEq buf.length (ps.getD i []) buf)

/-- Model of find_match: first component is the unique matching index,
-1 for no match, -2 for several (or for an empty buffer, where every
window counts); second component is the match count. -/
def find_match (ps : List (List Char)) (buf : List Char) : Int × Nat :=
  if buf = [] then (-2, ps.length)
  else
    match candIdx ps buf with
    | [m] => ((m : Int), 1)
    | [] => (-1, 0)
    | ms => (-2, ms.length)

/-- Result of processing one printable key in the event loop of atsw.c's
main: a unique match activates that window and ends the session, zero
matches logs NO MATCH and keeps waiting with the buffer kept, several
matches keep accumulating. -/
inductive StepResult
  | resolved (idx : Nat)
  | noMatch
  | accumulating (n : Nat)
deriving DecidableEq, Repr

/-- One printable-key iteration of the event loop of atsw.c's main: the
key is lowercased and appended to the buffer, then find_match decides. -/
def atsw_key_step (ps : List (List Char)) (buf : List Char) (c : Char) :
    List Char × StepResult :=
  let nb := buf ++ [asciiLower c]
  let r := find_match ps nb
  if 0 ≤ r.1 then (nb, .resolved r.1.toNat)
  else if r.2 = 0 then (nb, .noMatch)
  else (nb, .accumulating r.2)

/-- Result of one XGrabKeyboard call: GrabSuccess, AlreadyGrabbed, or any
of the other failure codes. -/
inductive GrabResult
  | success
  | alreadyGrabbed
  | otherFail
deriving DecidableEq, Repr

/-- The retry loop of grab_keyboard, shown with its attempt counter i,
the current delay in microseconds, and the remaining loop iterations.
Returns (grabbed, list of waits performed, number of attempts made).
A wait only happens on AlreadyGrabbed when this is not the last
iteration; the next delay is delay * 3 / 2 in integer arithmetic
(identical to the (int)(delay * 1.5) of grab_keys.c). -/
def grabGo (att : Nat → GrabResult) : Nat → Nat → Nat → Bool × List Nat × Nat
  | _, _, 0 => (false, [], 0)
  | i, delay, fuel + 1 =>
    if att i = .success then (true, [], 1)
    else if att i = .alreadyGrabbed then
      if 0 < fuel then
        ((grabGo att (i + 1) (delay * 3 / 2) fuel).1,
         delay :: (grabGo att (i + 1) (delay * 3 / 2) fuel).2.1,
         (grabGo att (i + 1) (delay * 3 / 2) fuel).2.2 + 1)
      else (false, [], 1)
    else (false, [], 1)

/-- grab_keyboard: max_retries = 10 attempts, initial delay 10000 us. -/
def grab_keyboard (att : Nat → GrabResult) : Bool × List Nat × Nat :=
  grabGo att 0 10000 10

/-- The backoff delays as computed by the C: start value d, then
repeatedly multiply by 3 and divide by 2 with integer truncation. -/
def delayFrom (d : Nat) : Nat → Nat
  | 0 => d
  | k + 1 => delayFrom (d * 3 / 2) k

/-- The concrete delay sequence of grab_keyboard: 10000 us and onward. -/
def delaySeq (k : Nat) : Nat := delayFrom 10000 k

/-- The cycle-next resolution of atsw_manual.c given the candidate window
identifiers in discovery order and the currently active window id: one
candidate is taken as is; otherwise the scan for the active window picks
the successor modulo the count when found and the first candidate when
not. -/
def resolveCycleNext (cands : List Nat) (active : Nat) : Option Nat :=
  match cands with
  | [] => none
  | c :: _ =>
    if cands.length = 1 then some c
    else
      if cands.findIdx (fun w => w == active) < cands.length then
        some (cands.getD ((cands.findIdx (fun w => w == active) + 1) % cands.length) 0)
      else some c

/-- C isspace in the C locale. -/
def isSpaceC (c : Char) : Bool :=
  c = ' ' || c = '\t' || c = '\n' || c = '\x0b' || c = '\x0c' || c = '\r'

/-- C isprint for the ASCII range handled by the config format. -/
def isPrintC (c : Char) : Bool :=
  32 ≤ c.toNat && c.toNat ≤ 126

/-- The trim helper of winleap.c: strip leading and trailing whitespace. -/
def trim (s : List Char) : List Char :=
  ((s.dropWhile isSpaceC).reverse.dropWhile isSpaceC).reverse

/-- parse_bool of winleap.c: the true spellings are checked first, the "1"
and "0" comparisons are exact while the words are case-insensitive. -/
def parse_bool (v : List Char) : Option Bool :=
  if caseEq v (toL "true") || caseEq v (toL "yes") || v = toL "1" then some true
  else if caseEq v (toL "false") || caseEq v (toL "no") || v = toL "0" then some false
  else none

/-- The accumulating loop of parse_instance_keys: whitespace and
non-printable bytes are dropped, characters are lowercased, a repeated
key or more than 127 kept characters is a hard error, and so is an empty
result.  The accumulator is kept reversed. -/
def parse_instance_keys_go : List Char → List Char → Option (List Char)
  | [], acc => if acc = [] then none else some acc.reverse
  | c :: rest, acc =>
    if isSpaceC c then parse_instance_keys_go rest acc
    else if ¬ isPrintC c then parse_instance_keys_go rest acc
    else
      if asciiLower c ∈ acc then none
      else if 127 ≤ acc.length then none
      else parse_instance_keys_go rest (asciiLower c :: acc)

/-- parse_instance_keys of winleap.c. -/
def parse_instance_keys (v : List Char) : Option (List Char) :=
  parse_instance_keys_go v []

/-- Greedy decimal-digit parse: the digits consumed and the rest, or none
when the first character is not a digit (strtol's endptr == nptr case). -/
def parseDigits (s : List Char) : Option (Nat × List Char) :=
  let ds := s.takeWhile (fun c => 48 ≤ c.toNat && c.toNat ≤ 57)
  let rest := s.dropWhile (fun c => 48 ≤ c.toNat && c.toNat ≤ 57)
  if ds = [] then none else some (ds.foldl (fun a d => a * 10 + (d.toNat - 48)) 0, rest)

/-- strtol(key, &endptr, 10) on a trimmed key: optional sign then digits;
none models endptr == key. -/
def strtolDec (s : List Char) : Option (Int × List Char) :=
  match s with
  | '+' :: rest => (parseDigits rest).map (fun p => ((p.1 : Int), p.2))
  | '-' :: rest => (parseDigits rest).map (fun p => (-(p.1 : Int), p.2))
  | _ => (parseDigits s).map (fun p => ((p.1 : Int), p.2))

/-- The mark-number validation of the config loop: full conversion
(*endptr == NUL), strictly positive, and at most INT_MAX (values beyond
it, which strtol would clamp to LONG_MAX, fail the same check). -/
def parseMarkNum (key : List Char) : Option Nat :=
  match strtolDec key with
  | none => none
  | some (v, rest) =>
    if rest = [] ∧ 0 < v ∧ v ≤ 2147483647 then some v.toNat else none

/-- What one config line does. -/
inductive LineAction
  | skip
  | setKeys (ks : List Char)
  | setDebug (b : Bool)
  | addMark (n : Nat) (cls : List Char)
  | fail
deriving DecidableEq, Repr

/-- Split a line at its first '=' (strchr), yielding the parts before and
after it. -/
def splitFirstEq : List Char → Option (List Char × List Char)
  | [] => none
  | c :: rest =>
    if c = '=' then some ([], rest)
    else (splitFirstEq rest).map (fun pr => (c :: pr.1, pr.2))

/-- The per-line logic of read_config_file: blank and comment lines and
lines without '=' or with an empty key are skipped; instance_keys and
debug values must parse or the load fails; any other key is treated as a
mark number, and lines whose number does not validate or whose value is
empty are silently skipped. -/
def processLine (line : List Char) : LineAction :=
  let p := trim line
  if p = [] then .skip
  else if p.headD ' ' = '#' then .skip
  else
    match splitFirstEq p with
    | none => .skip
    | some (l, r) =>
      let key := trim l
      let value := trim r
      if key = [] then .skip
      else if caseEq key (toL "instance_keys") then
        match parse_instance_keys value with
        | some ks => .setKeys ks
        | none => .fail
      else if caseEq key (toL "debug") then
        match parse_bool value with
        | some b => .setDebug b
        | none => .fail
      else
        match parseMarkNum key with
        | none => .skip
        | some n => if value = [] then .skip else .addMark n value

/-- The loaded configuration: mark table, selector keys, debug flag. -/
structure Config where
  marks : List (Nat × List Char)
  instance_keys : List Char
  debug : Bool
deriving DecidableEq, Repr

/-- The compiled-in default selector keys of winleap.c. -/
def DEFAULT_INSTANCE_KEYS : List Char := toL "qwertyuiopasdfghjklzxcvbnm1234567890"

/-- The line loop of read_config_file; lines stop being processed once
MAX_MARKS = 100 marks are stored. -/
def readGo : List (List Char) → Config → Option Config
  | [], cfg => some cfg
  | l :: ls, cfg =>
    if 100 ≤ cfg.marks.length then some cfg
    else
      match processLine l with
      | .skip => readGo ls cfg
      | .fail => none
      | .setKeys ks => readGo ls { cfg with instance_keys := ks }
      | .setDebug b => readGo ls { cfg with debug := b }
      | .addMark n c => readGo ls { cfg with marks := cfg.marks ++ [(n, c)] }

/-- read_config_file on the file's lines (the unreadable-file failure is
outside this model): the config starts from the defaults, a bad
instance_keys or debug value aborts the load, and a load that ends with
zero marks is also a failure (the C returns num_marks > 0). -/
def read_config_file (lines : List (List Char)) : Option Config :=
  match readGo lines ⟨[], DEFAULT_INSTANCE_KEYS, false⟩ with
  | none => none
  | some cfg => if cfg.marks.length = 0 then none else some cfg

/-- find_wmclass_for_mark: first mark entry with the requested number. -/
def find_wmclass_for_mark (cfg : Config) (n : Nat) : Option (List Char) :=
  (cfg.marks.find? (fun m => m.1 == n)).map (fun m => m.2)

/-- A window as enumerated by _NET_CLIENT_LIST before filtering: the class
is none when WM_CLASS is missing (get_wm_class also rejects an empty
class string, modelled as some []). -/
structure RawWin where
  id : Nat
  cls : Option (List Char)
  desktop : Int
deriving DecidableEq, Repr

/-- A discovered window after filtering. -/
structure WinInfo where
  id : Nat
  cls : List Char
  desktop : Int
deriving DecidableEq, Repr

/-- The filtering loop of discover_windows: windows without a resolvable
non-empty class are skipped, and collection stops at MAX_WINDOWS = 256
kept windows. -/
def collectWindows : List RawWin → Nat → List WinInfo
  | [], _ => []
  | r :: rs, n =>
    if 256 ≤ n then []
    else
      match r.cls with
      | none => collectWindows rs n
      | some c =>
        if c = [] then collectWindows rs n
        else ⟨r.id, c, r.desktop⟩ :: collectWindows rs (n + 1)

/-- discover_windows: none for enumeration failure gives an empty window
list, indistinguishable afterwards from a successful enumeration in which
every window was filtered out (the C returns num_windows either way). -/
def discover_windows (enum : Option (List RawWin)) : List WinInfo :=
  match enum with
  | none => []
  | some rs => collectWindows rs 0

/-- find_windows_by_class_and_scope: case-insensitive class match, and
under --current-workspace also a desktop match, where an unknown current
desktop (negative) matches nothing. -/
def scopeMatches (ws : List WinInfo) (target : List Char) (scopeOnly : Bool)
    (curDesk : Int) : List WinInfo :=
  ws.filter (fun w =>
    caseEq w.cls target &&
      (!scopeOnly || (decide (0 ≤ curDesk) && w.desktop == curDesk)))

/-- Input events seen by the selection loop: Escape, a key that produced
a printable character, or anything else (ignored). -/
inductive InputEvent
  | escape
  | key (c : Char)
  | other
deriving DecidableEq, Repr

/-- The blocking event loop of select_instance_interactively: Escape
returns -1, a typed character is lowercased and scanned against the first
match-count selector keys (returning the matched candidate position),
anything else is ignored; none models a loop still blocked waiting. -/
def selectLoop (keys : List Char) (nMatches : Nat) : List InputEvent → Option Int
  | [] => none
  | e :: rest =>
    match e with
    | .escape => some (-1)
    | .key c =>
      match (keys.take nMatches).findIdx? (fun k => k == asciiLower c) with
      | some i => some (i : Int)
      | none => selectLoop keys nMatches rest
    | .other => selectLoop keys nMatches rest

/-- select_instance_interactively returns the chosen candidate position
(or -1 cancel, -2 error) together with the count-mismatch report printed
when there are more candidates than selector keys.  The mismatch check
precedes the keyboard grab and the event loop. -/
def select_instance_interactively (keys : List Char) (nMatches : Nat)
    (grabOk : Bool) (events : List InputEvent) :
    Option Int × Option (Nat × Nat) :=
  if nMatches = 0 then (some (-2), none)
  else if keys.length < nMatches then (some (-2), some (nMatches, keys.length))
  else if ¬ grabOk then (some (-2), none)
  else (selectLoop keys nMatches events, none)

/-- Observable outcome of a winleap run: process exit code, the id of the
activated window if any, and the count-mismatch report if printed. -/
structure Outcome where
  exitCode : Nat
  activated : Option Nat
  mismatch : Option (Nat × Nat)
deriving DecidableEq, Repr

/-- The environment a run consumes: X connection state, the enumeration
result, the current desktop, the grab outcome and the key events. -/
structure Env where
  displayOk : Bool
  enumResult : Option (List RawWin)
  currentDesktop : Int
  grabOk : Bool
  events : List InputEvent
deriving DecidableEq, Repr

/-- The dispatch tail of winleap.c main, from the mark lookup on: missing
mapping exits 1; a failed display connection exits 2; a zero result from
discover_windows exits 2; no class match in scope exits 1; a single match
activates immediately with exit 0; otherwise the interactive selection
runs, whose -1 exits 1, other negatives exit 2, and a selected candidate
is activated with exit 0.  The whole run is none when the selection loop
would still be blocked. -/
def winleap_run (cfg : Config) (mark : Nat) (scopeOnly : Bool) (env : Env) :
    Option Outcome :=
  match find_wmclass_for_mark cfg mark with
  | none => some ⟨1, none, none⟩
  | some target =>
    if env.displayOk then
      let ws := discover_windows env.enumResult
      if ws.length = 0 then some ⟨2, none, none⟩
      else
        let ms := scopeMatches ws target scopeOnly
          (if scopeOnly then env.currentDesktop else -1)
        if ms.length = 0 then some ⟨1, none, none⟩
        else if ms.length = 1 then
          some ⟨0, some (ms.headD ⟨0, [], 0⟩).id, none⟩
        else
          match select_instance_interactively cfg.instance_keys ms.length
              env.grabOk env.events with
          | (none, _) => none
          | (some t, rep) =>
            if t = -1 then some ⟨1, none, rep⟩
            else if t < 0 then some ⟨2, none, rep⟩
            else some ⟨0, some (ms.getD t.toNat ⟨0, [], 0⟩).id, rep⟩
    else some ⟨2, none, none⟩

/-- main before the dispatch tail: the config load, whose failure exits 1
before any window work. -/
def winleap_main (lines : List (List Char)) (mark : Nat) (scopeOnly : Bool)
    (env : Env) : Option Outcome :=
  match read_config_file lines with
  | none => some ⟨1, none, none⟩
  | some cfg => winleap_run cfg mark scopeOnly env

/- ===== Theorems ===== -/

theorem prefixLenFrom_ge (others : List (List Char)) (cls : List Char) :
    ∀ fuel L, L ≤ prefixLenFrom others cls L fuel := by
  intro fuel
  induction fuel with
  | zero => intro L; simp [prefixLenFrom]
  | succ n ih =>
    intro L
    simp only [prefixLenFrom]
    split
    · exact Nat.le_refl L
    · exact Nat.le_trans (Nat.le_succ L) (ih (L + 1))

theorem prefixLenFrom_le (others : List (List Char)) (cls : List Char) :
    ∀ fuel L, prefixLenFrom others cls L fuel ≤ L + fuel := by
  intro fuel
  induction fuel with
  | zero => intro L; simp [prefixLenFrom]
  | succ n ih =>
    intro L
    simp only [prefixLenFrom]
    split
    · omega
    · have := ih (L + 1)
      omega

theorem prefixLenFrom_unique (others : List (List Char)) (cls : List Char) :
    ∀ fuel L, prefixLenFrom others cls L fuel < L + fuel →
      isUniqueAt others cls (prefixLenFrom others cls L fuel) = true := by
  intro fuel
  induction fuel with
  | zero =>
    intro L h
    simp only [prefixLenFrom] at h
    omega
  | succ n ih =>
    intro L h
    simp only [prefixLenFrom] at h ⊢
    cases hu : isUniqueAt others cls L with
    | true => simp [hu]
    | false =>
      simp only [hu, Bool.false_eq_true, if_false] at h ⊢
      exact ih (L + 1) (by omega)

theorem prefixLenFrom_exhaust (others : List (List Char)) (cls : List Char) :
    ∀ fuel L, (∀ L', L ≤ L' → L' < L + fuel → isUniqueAt others cls L' = false) →
      prefixLenFrom others cls L fuel = L + fuel := by
  intro fuel
  induction fuel with
  | zero => intro L _; simp [prefixLenFrom]
  | succ n ih =>
    intro L hall
    have hL : isUniqueAt others cls L = false := hall L (Nat.le_refl L) (by omega)
    simp only [prefixLenFrom, hL, Bool.false_eq_true, if_false]
    have := ih (L + 1) (fun L' h1 h2 => hall L' (by omega) (by omega))
    omega

theorem prefixLen_pos (others : List (List Char)) (cls : List Char) :
    1 ≤ prefixLen others cls :=
  prefixLenFrom_ge others cls cls.length 1

theorem prefixLen_le_succ (others : List (List Char)) (cls : List Char) :
    prefixLen others cls ≤ cls.length + 1 := by
  have := prefixLenFrom_le others cls cls.length 1
  unfold prefixLen
  omega

theorem prefixLen_unique (others : List (List Char)) (cls : List Char)
    (h : prefixLen others cls ≤ cls.length) :
    isUniqueAt others cls (prefixLen others cls) = true := by
  apply prefixLenFrom_unique others cls cls.length 1
  unfold prefixLen at h
  omega

theorem isUniqueAt_not_eq (others : List (List Char)) (cls : List Char) (L : Nat)
    (h : isUniqueAt others cls L = true) :
    ∀ b ∈ others, strncaseEq L cls b = false := by
  intro b hb
  have := List.all_eq_true.mp h b hb
  simpa using this

theorem strncaseEq_of_take_eq (L : Nat) (a b : List Char)
    (h : a.take L = b.take L) : strncaseEq L a b = true := by
  simp [strncaseEq, h]

theorem appSeq_length (others : List (List Char)) (cls : List Char) :
    (appSeq others cls).length = min (prefixLen others cls) cls.length := by
  simp [appSeq]

theorem appSeq_fallback (others : List (List Char)) (cls : List Char)
    (h : cls.length < prefixLen others cls) : appSeq others cls = cls :=
  List.take_of_length_le (Nat.le_of_lt h)

/-- Core injectivity: whenever either of the two classes admits a genuine
distinguishing length, equal assigned sequences are impossible; in the
double-fallback case the sequences are the full distinct class names. -/
theorem appSeq_ne (o1 o2 : List (List Char)) (c1 c2 : List Char)
    (hne : c1 ≠ c2) (h1 : c2 ∈ o1) (h2 : c1 ∈ o2) :
    appSeq o1 c1 ≠ appSeq o2 c2 := by
  intro heq
  rcases Nat.lt_or_ge c1.length (prefixLen o1 c1) with hf1 | hg1
  · rcases Nat.lt_or_ge c2.length (prefixLen o2 c2) with hf2 | hg2
    · -- both fallback: full class names, distinct
      rw [appSeq_fallback o1 c1 hf1, appSeq_fallback o2 c2 hf2] at heq
      exact hne heq
    · -- c2 genuine: symmetric contradiction via c1 ∈ o2
      set L2 := prefixLen o2 c2 with hL2
      have hlen : (appSeq o2 c2).length = L2 := by
        rw [appSeq_length]; omega
      have hlen1 : (appSeq o1 c1).length = L2 := by rw [heq, hlen]
      have hmin : min L2 c1.length = L2 := by
        have := appSeq_length o1 c1
        rw [hlen1] at this
        rw [appSeq_fallback o1 c1 hf1] at hlen1
        omega
      have htake : c1.take L2 = c2.take L2 := by
        have e1 : appSeq o1 c1 = c1 := appSeq_fallback o1 c1 hf1
        calc c1.take L2 = (appSeq o1 c1).take L2 := by rw [e1]
          _ = (appSeq o2 c2).take L2 := by rw [heq]
          _ = c2.take L2 := by
              rw [appSeq]
              rw [List.take_take]
              congr 1
              omega
      have hu := isUniqueAt_not_eq o2 c2 L2 (prefixLen_unique o2 c2 hg2) c1 h2
      rw [strncaseEq_of_take_eq L2 c2 c1 htake.symm] at hu
      exact Bool.noConfusion hu
  · -- c1 genuine: contradiction via c2 ∈ o1
    set L1 := prefixLen o1 c1 with hL1
    have hlen : (appSeq o1 c1).length = L1 := by
      rw [appSeq_length]; omega
    have hlen2 : (appSeq o2 c2).length = L1 := by rw [← heq, hlen]
    have htake : c2.take L1 = c1.take L1 := by
      have hmin : min L1 (prefixLen o2 c2) ≥ L1 := by
        have := appSeq_length o2 c2
        rw [hlen2] at this
        rcases Nat.le_total L1 (prefixLen o2 c2) with h | h
        · omega
        · omega
      calc c2.take L1 = (c2.take (prefixLen o2 c2)).take L1 := by
            rw [List.take_take]
            congr 1
            omega
        _ = (appSeq o2 c2).take L1 := rfl
        _ = (appSeq o1 c1).take L1 := by rw [heq]
        _ = appSeq o1 c1 := by rw [List.take_of_length_le (by omega)]
        _ = c1.take L1 := rfl
    have hu := isUniqueAt_not_eq o1 c1 L1 (prefixLen_unique o1 c1 hg1) c2 h1
    rw [strncaseEq_of_take_eq L1 c1 c2 htake.symm] at hu
    exact Bool.noConfusion hu

theorem strncaseEq_append_char (p b : List Char) (c : Char)
    (h : strncaseEq (b.length + 1) p (b ++ [c]) = true) :
    strncaseEq b.length p b = true := by
  simp only [strncaseEq, beq_iff_eq, List.take_length] at h ⊢
  have h2 : (b ++ [c]).take (b.length + 1) = b ++ [c] :=
    List.take_of_length_le (by simp)
  rw [h2, List.map_append] at h
  have htake := congrArg (List.take b.length) h
  rw [← List.map_take, List.take_take] at htake
  have hmin : min b.length (b.length + 1) = b.length := by omega
  rw [hmin] at htake
  have h3 : (List.map asciiLower b ++ List.map asciiLower [c]).take b.length
      = List.map asciiLower b := List.take_left' (by simp)
  rw [h3] at htake
  exact htake

theorem candIdx_append_subset (ps : List (List Char)) (b : List Char) (c : Char) :
    ∀ i ∈ candIdx ps (b ++ [c]), i ∈ candIdx ps b := by
  intro i hi
  simp only [candIdx, List.mem_filter] at hi ⊢
  refine ⟨hi.1, ?_⟩
  have := hi.2
  rw [List.length_append, List.length_singleton] at this
  exact strncaseEq_append_char _ b c this

theorem candIdx_dropLast_superset (ps : List (List Char)) (b : List Char)
    (hne : b ≠ []) : ∀ i ∈ candIdx ps b, i ∈ candIdx ps b.dropLast := by
  intro i hi
  have hsplit : b.dropLast ++ [b.getLast hne] = b := List.dropLast_append_getLast hne
  rw [← hsplit] at hi
  exact candIdx_append_subset ps b.dropLast (b.getLast hne) i hi

theorem grabGo_attempts_le (att : Nat → GrabResult) :
    ∀ fuel i d, (grabGo att i d fuel).2.2 ≤ fuel := by
  intro fuel
  induction fuel with
  | zero => intro i d; simp [grabGo]
  | succ n ih =>
    intro i d
    simp only [grabGo]
    by_cases hs : att i = .success
    · rw [if_pos hs]; simp
    · rw [if_neg hs]
      by_cases hg : att i = .alreadyGrabbed
      · rw [if_pos hg]
        by_cases hf : 0 < n
        · rw [if_pos hf]
          have := ih (i + 1) (d * 3 / 2)
          simp only []
          omega
        · rw [if_neg hf]; simp
      · rw [if_neg hg]; simp

theorem grabGo_waits_geometric (att : Nat → GrabResult) :
    ∀ fuel i d, (grabGo att i d fuel).2.1 =
      (List.range (grabGo att i d fuel).2.1.length).map (delayFrom d) := by
  intro fuel
  induction fuel with
  | zero => intro i d; simp [grabGo]
  | succ n ih =>
    intro i d
    simp only [grabGo]
    by_cases hs : att i = .success
    · rw [if_pos hs]; simp
    · rw [if_neg hs]
      by_cases hg : att i = .alreadyGrabbed
      · rw [if_pos hg]
        by_cases hf : 0 < n
        · rw [if_pos hf]
          simp only [List.length_cons]
          rw [List.range_succ_eq_map, List.map_cons, List.map_map]
          have hcomp : (delayFrom d ∘ Nat.succ) = delayFrom (d * 3 / 2) := by
            funext k
            rfl
          rw [hcomp]
          exact congrArg (List.cons d) (ih (i + 1) (d * 3 / 2))
        · rw [if_neg hf]; simp
      · rw [if_neg hg]; simp

theorem grabGo_retry_only_already (att : Nat → GrabResult) :
    ∀ fuel i d j, j < (grabGo att i d fuel).2.1.length →
      att (i + j) = .alreadyGrabbed := by
  intro fuel
  induction fuel with
  | zero => intro i d j h; simp [grabGo] at h
  | succ n ih =>
    intro i d j h
    simp only [grabGo] at h
    by_cases hs : att i = .success
    · rw [if_pos hs] at h; simp at h
    · rw [if_neg hs] at h
      by_cases hg : att i = .alreadyGrabbed
      · rw [if_pos hg] at h
        by_cases hf : 0 < n
        · rw [if_pos hf] at h
          simp only [List.length_cons] at h
          cases j with
          | zero => simpa using hg
          | succ k =>
            have := ih (i + 1) (d * 3 / 2) k (by omega)
            have harith : i + 1 + k = i + (k + 1) := by omega
            rwa [harith] at this
        · rw [if_neg hf] at h; simp at h
      · rw [if_neg hg] at h; simp at h

theorem grabGo_exhaust (att : Nat → GrabResult) :
    ∀ fuel i d, (∀ j, j < fuel → att (i + j) = .alreadyGrabbed) →
      (grabGo att i d fuel).1 = false ∧ (grabGo att i d fuel).2.2 = fuel := by
  intro fuel
  induction fuel with
  | zero => intro i d _; simp [grabGo]
  | succ n ih =>
    intro i d hall
    have h0 : att i = .alreadyGrabbed := by simpa using hall 0 (by omega)
    have hs : ¬ att i = .success := by rw [h0]; intro hc; cases hc
    simp only [grabGo, if_neg hs, if_pos h0]
    by_cases hf : 0 < n
    · rw [if_pos hf]
      have := ih (i + 1) (d * 3 / 2) (fun j hj => by
        have := hall (j + 1) (by omega)
        have harith : i + (j + 1) = i + 1 + j := by omega
        rwa [harith] at this)
      exact ⟨this.1, by simp only []; rw [this.2]⟩
    · rw [if_neg hf]
      have hn : n = 0 := by omega
      simp [hn]

theorem grabGo_otherFail (att : Nat → GrabResult) :
    ∀ fuel i d j, j < fuel → att (i + j) = .otherFail →
      (∀ k, k < j → att (i + k) = .alreadyGrabbed) →
      (grabGo att i d fuel).1 = false ∧ (grabGo att i d fuel).2.2 = j + 1 := by
  intro fuel
  induction fuel with
  | zero => intro i d j h; omega
  | succ n ih =>
    intro i d j hj hfail hbefore
    cases j with
    | zero =>
      have h0 : att i = .otherFail := by simpa using hfail
      have hs : ¬ att i = .success := by rw [h0]; intro hc; cases hc
      have hg : ¬ att i = .alreadyGrabbed := by rw [h0]; intro hc; cases hc
      simp [grabGo, if_neg hs, if_neg hg]
    | succ m =>
      have h0 : att i = .alreadyGrabbed := by simpa using hbefore 0 (by omega)
      have hs : ¬ att i = .success := by rw [h0]; intro hc; cases hc
      have hf : 0 < n := by omega
      simp only [grabGo, if_neg hs, if_pos h0, if_pos hf]
      have := ih (i + 1) (d * 3 / 2) m (by omega)
        (by have harith : i + 1 + m = i + (m + 1) := by omega
            rwa [harith])
        (fun k hk => by
          have := hbefore (k + 1) (by omega)
          have harith : i + (k + 1) = i + 1 + k := by omega
          rwa [harith] at this)
      exact ⟨this.1, by rw [this.2]⟩

/-- C3: for every set of one or more distinct normalized application
class names, the minimal-prefix assignment of compute_prefixes is
injective across single-instance groups: two groups with distinct classes,
each listed among the other's competing classes, never receive the same
assigned sequence. -/
theorem minimal_prefix_injective (o1 o2 : List (List Char)) (c1 c2 : List Char)
    (hne : c1 ≠ c2) (h1 : c2 ∈ o1) (h2 : c1 ∈ o2) :
    appSeq o1 c1 ≠ appSeq o2 c2 :=
  appSeq_ne o1 o2 c1 c2 hne h1 h2

/-- Witness for C3: distinct classes "zen" and "discord" receive the
distinct sequences "z" and "d". -/
theorem minimal_prefix_injective_witness :
    (toL "zen" ≠ toL "discord" ∧ toL "discord" ∈ [toL "discord"] ∧
      toL "zen" ∈ [toL "zen"]) ∧
    appSeq [toL "discord"] (toL "zen") ≠ appSeq [toL "zen"] (toL "discord") :=
  ⟨by decide,
   minimal_prefix_injective [toL "discord"] [toL "zen"] (toL "zen") (toL "discord")
     (by decide) (by decide) (by decide)⟩

/-- C2 counterexample: with the two single-instance classes "do" and
"dog" the computed index assigns "do" its full class name (no length up
to 2 distinguishes it from "dog"), and that sequence is a strict prefix
of the sequence "dog" assigned to the other single-instance group.  The
claimed pairwise non-prefixing invariant therefore fails on this index. -/
theorem index_strict_prefix_cex :
    computeIndex [toL "do", toL "dog"] = [toL "do", toL "dog"] ∧
    [toL "do", toL "dog"].count (toL "do") = 1 ∧
    [toL "do", toL "dog"].count (toL "dog") = 1 ∧
    (toL "do").isPrefixOf (toL "dog") = true ∧ toL "do" ≠ toL "dog" := by
  decide

/-- C2 (amended): a single-instance group whose shortest-unique-prefix
search succeeds within its class length (its class is not a prefix of a
competing class) receives a sequence that is not a prefix, in particular
not a strict prefix, of any other single-instance group's sequence.  The
unamended claim fails for groups that fall back to their full class name,
as index_strict_prefix_cex shows. -/
theorem single_seq_not_strict_prefixing (o1 o2 : List (List Char)) (c1 c2 : List Char)
    (h1 : c2 ∈ o1) (hgen : prefixLen o1 c1 ≤ c1.length) :
    ¬ ((appSeq o1 c1).isPrefixOf (appSeq o2 c2) = true ∧
        appSeq o1 c1 ≠ appSeq o2 c2) := by
  rintro ⟨hpre, _⟩
  have hp : appSeq o1 c1 <+: appSeq o2 c2 := by
    rwa [List.isPrefixOf_iff_prefix] at hpre
  have hlen1 : (appSeq o1 c1).length = prefixLen o1 c1 := by
    rw [appSeq_length]; omega
  have heq := List.prefix_iff_eq_take.mp hp
  rw [hlen1] at heq
  have h2 : (appSeq o2 c2).take (prefixLen o1 c1)
      = c2.take (min (prefixLen o1 c1) (prefixLen o2 c2)) := by
    rw [appSeq, List.take_take]
  rw [h2] at heq
  have hminlen : min (min (prefixLen o1 c1) (prefixLen o2 c2)) c2.length
      = prefixLen o1 c1 := by
    have := congrArg List.length heq
    rw [hlen1, List.length_take] at this
    omega
  have hmin : min (prefixLen o1 c1) (prefixLen o2 c2) = prefixLen o1 c1 := by
    omega
  rw [hmin] at heq
  have htake : c1.take (prefixLen o1 c1) = c2.take (prefixLen o1 c1) := heq
  have hu := isUniqueAt_not_eq o1 c1 (prefixLen o1 c1)
    (prefixLen_unique o1 c1 hgen) c2 h1
  rw [strncaseEq_of_take_eq (prefixLen o1 c1) c1 c2 htake] at hu
  exact Bool.noConfusion hu

/-- Witness for the amended C2: the genuine sequence "z" of class "zen"
is not a strict prefix of the sequence of class "discord". -/
theorem single_seq_not_strict_prefixing_witness :
    (toL "discord" ∈ [toL "discord"] ∧
      prefixLen [toL "discord"] (toL "zen") ≤ (toL "zen").length) ∧
    ¬ ((appSeq [toL "discord"] (toL "zen")).isPrefixOf
          (appSeq [toL "zen"] (toL "discord")) = true ∧
        appSeq [toL "discord"] (toL "zen") ≠ appSeq [toL "zen"] (toL "discord")) :=
  ⟨by decide,
   single_seq_not_strict_prefixing [toL "discord"] [toL "zen"] (toL "zen")
     (toL "discord") (by decide) (by decide)⟩

/-- C10: when no prefix length from 1 to the class length distinguishes a
group from every other group, compute_prefixes does not fail: the group's
sequence is its entire class name, with the 1-based instance digit
appended after the full class name for multi-instance groups. -/
theorem fallback_assigns_full_class (others : List (List Char)) (cls : List Char)
    (n : Nat)
    (hfail : ∀ L ∈ List.range' 1 cls.length, isUniqueAt others cls L = false) :
    groupSeqs others cls n =
      if n = 1 then [cls]
      else (List.range n).map (fun w => cls ++ instDigits (w + 1)) := by
  have hlen : prefixLen others cls = cls.length + 1 := by
    unfold prefixLen
    have := prefixLenFrom_exhaust others cls cls.length 1
      (fun L' h1 h2 => hfail L' (by rw [List.mem_range'_1]; omega))
    omega
  have htake : cls.take (prefixLen others cls) = cls := by
    rw [hlen]
    exact List.take_of_length_le (by omega)
  unfold groupSeqs
  rw [htake]

/-- Witness for C10: class "do" against competing class "dog", with two
instances, is assigned the sequences "do1" and "do2" built on the full
class name. -/
theorem fallback_assigns_full_class_witness :
    (∀ L ∈ List.range' 1 (toL "do").length,
      isUniqueAt [toL "dog"] (toL "do") L = false) ∧
    groupSeqs [toL "dog"] (toL "do") 2 = [toL "do1", toL "do2"] := by
  refine ⟨by decide, ?_⟩
  rw [fallback_assigns_full_class [toL "dog"] (toL "do") 2 (by decide)]
  decide

/-- C4 counterexample: with an index of exactly one total entry (sequence
"z"), pressing the key q with an empty buffer does not resolve: find_match
reports zero candidates, no window is activated, and the session keeps
waiting.  This refutes the claim that any key pressed from Idle resolves
the single-entry index. -/
theorem single_entry_any_key_cex :
    ([toL "z"] : List (List Char)).length = 1 ∧
    atsw_key_step [toL "z"] [] 'q' = (toL "q", StepResult.noMatch) ∧
    find_match [toL "z"] (toL "q") = (-1, 0) := by
  decide

/-- C4 (amended): with an index of exactly one total entry, a key pressed
from Idle resolves to that entry, triggering its activation, exactly when
the entry's sequence starts case-insensitively with the typed character;
any other key yields zero candidates and no activation. -/
theorem single_entry_key_step (p : List Char) (c : Char) :
    (strncaseEq 1 p [asciiLower c] = true →
      atsw_key_step [p] [] c = ([asciiLower c], StepResult.resolved 0)) ∧
    (strncaseEq 1 p [asciiLower c] = false →
      atsw_key_step [p] [] c = ([asciiLower c], StepResult.noMatch)) := by
  have hrange : List.range 1 = [0] := by decide
  constructor
  · intro h
    simp [atsw_key_step, find_match, candIdx, hrange, List.filter_cons, h]
  · intro h
    simp [atsw_key_step, find_match, candIdx, hrange, List.filter_cons, h]

/-- Witness for the amended C4: entry "z", typed key Z (lowercased to z),
resolves to the single entry. -/
theorem single_entry_key_step_witness :
    strncaseEq 1 (toL "z") [asciiLower 'Z'] = true ∧
    atsw_key_step [toL "z"] [] 'Z' = ([asciiLower 'Z'], StepResult.resolved 0) :=
  ⟨by decide, (single_entry_key_step (toL "z") 'Z').1 (by decide)⟩

/-- C5: the candidate set of find_match narrows monotonically: every
candidate of the buffer extended by one character is a candidate of the
buffer, and removing the last character of a non-empty buffer loses no
candidate. -/
theorem candidate_sets_monotone (ps : List (List Char)) (b : List Char) (c : Char) :
    (∀ i ∈ candIdx ps (b ++ [c]), i ∈ candIdx ps b) ∧
    (b ≠ [] → ∀ i ∈ candIdx ps b, i ∈ candIdx ps b.dropLast) :=
  ⟨candIdx_append_subset ps b c, fun h => candIdx_dropLast_superset ps b h⟩

/-- Witness for C5: over the index of "zen-browser" and "discord", the
candidate 0 of buffer "z" survives dropping back to the empty buffer, in
both phrasings of the theorem. -/
theorem candidate_sets_monotone_witness :
    (0 ∈ candIdx [toL "z", toL "d"] ([] ++ ['z']) ∧
      0 ∈ candIdx [toL "z", toL "d"] []) ∧
    (toL "z" ≠ [] ∧ 0 ∈ candIdx [toL "z", toL "d"] (toL "z") ∧
      0 ∈ candIdx [toL "z", toL "d"] ((toL "z").dropLast)) := by
  refine ⟨⟨by decide, ?_⟩, by decide, by decide, ?_⟩
  · exact (candidate_sets_monotone [toL "z", toL "d"] [] 'z').1 0 (by decide)
  · exact (candidate_sets_monotone [toL "z", toL "d"] (toL "z") 'x').2
      (by decide) 0 (by decide)

/-- C9: under the CycleNext policy of atsw_manual.c, for a duplicate-free
candidate list in discovery order: when the focused window sits at
position i among the candidates the resolver picks position (i + 1) mod
count (wrapping to the first after the last), and when the focused window
is not among the candidates it picks the first candidate. -/
theorem cycle_next_policy (cands : List Nat) (active : Nat) (hnd : cands.Nodup) :
    (∀ i (h : i < cands.length), cands.get ⟨i, h⟩ = active →
      resolveCycleNext cands active = some (cands.getD ((i + 1) % cands.length) 0)) ∧
    (cands ≠ [] → active ∉ cands →
      resolveCycleNext cands active = some (cands.headD 0)) := by
  constructor
  · intro i h hi
    match cands, hnd, h, hi with
    | c :: rest, hnd, h, hi =>
      simp only [resolveCycleNext]
      have hi2 : (c :: rest)[i] = active := hi
      by_cases h1 : (c :: rest).length = 1
      · rw [if_pos h1]
        have hrest : rest = [] := by
          simp only [List.length_cons] at h1
          exact List.length_eq_zero.mp (by omega)
        subst hrest
        have hi0 : i = 0 := by
          simp only [List.length_cons, List.length_nil] at h
          omega
        subst hi0
        simp only [List.get] at hi
        subst hi
        simp
      · rw [if_neg h1]
        have hfind : (c :: rest).findIdx (fun w => w == active) = i := by
          rw [List.findIdx_eq h]
          constructor
          · simp [hi2]
          · intro j hji
            simp only [beq_eq_false_iff_ne, ne_eq]
            intro hcontra
            have hj : j < (c :: rest).length := by omega
            have hji2 : j = i := by
              have heq : (c :: rest)[j] = (c :: rest)[i] := by
                rw [hi2]
                exact hcontra
              exact (List.Nodup.getElem_inj_iff hnd).mp heq
            omega
        rw [hfind, if_pos h]
  · intro hne hnotmem
    match cands, hne, hnotmem with
    | c :: rest, _, hnotmem =>
      simp only [resolveCycleNext]
      by_cases h1 : (c :: rest).length = 1
      · rw [if_pos h1]; rfl
      · rw [if_neg h1]
        have hfind : (c :: rest).findIdx (fun w => w == active)
            = (c :: rest).length :=
          List.findIdx_eq_length_of_false (fun x hx => by
            simp only [beq_eq_false_iff_ne, ne_eq]
            intro hcontra
            exact hnotmem (hcontra ▸ hx))
        rw [hfind, if_neg (by omega)]
        rfl

/-- Witness for C9: with candidates [5, 7] and focus on 5 (position 0),
the resolver picks the candidate at position (0 + 1) mod 2, window 7. -/
theorem cycle_next_policy_witness :
    ([5, 7].Nodup ∧ [5, 7].get ⟨0, by decide⟩ = 5) ∧
    resolveCycleNext [5, 7] 5 = some 7 := by
  refine ⟨⟨by decide, by decide⟩, ?_⟩
  have := (cycle_next_policy [5, 7] 5 (by decide)).1 0 (by decide) (by decide)
  simpa using this

/-- C1 counterexample: mark-directed dispatch with two candidate windows
and a single configured selector key fails immediately with the
count-mismatch report (2, 1), activates nothing — but exits with code 2,
not the claimed code 1 (main maps the -2 of
select_instance_interactively to exit 2). -/
theorem selector_exhausted_exit_cex :
    winleap_run ⟨[(1, toL "zen")], toL "1", false⟩ 1 false
        ⟨true, some [⟨10, some (toL "zen"), 0⟩, ⟨11, some (toL "zen"), 0⟩],
          0, true, []⟩
      = some ⟨2, none, some (2, 1)⟩ ∧ (2 : Nat) ≠ 1 := by
  decide

/-- C1 (amended): when mark-directed dispatch resolves to more candidate
windows than configured selector keys, the run fails before any event is
consumed with the count-mismatch report naming both counts, no selection
is attempted, no window is activated — and the exit code is 2 (not 1 as
claimed: main treats the -2 error return as an environment-level
failure). -/
theorem selector_exhausted_amended (cfg : Config) (mark : Nat) (scope : Bool)
    (env : Env) (target : List Char)
    (hm : find_wmclass_for_mark cfg mark = some target)
    (hd : env.displayOk = true)
    (hlen2 : 2 ≤ (scopeMatches (discover_windows env.enumResult) target scope
        (if scope then env.currentDesktop else -1)).length)
    (hgt : cfg.instance_keys.length <
        (scopeMatches (discover_windows env.enumResult) target scope
          (if scope then env.currentDesktop else -1)).length) :
    winleap_run cfg mark scope env =
      some ⟨2, none,
        some ((scopeMatches (discover_windows env.enumResult) target scope
            (if scope then env.currentDesktop else -1)).length,
          cfg.instance_keys.length)⟩ := by
  have hws : ¬ (discover_windows env.enumResult).length = 0 := by
    intro h0
    rw [List.length_eq_zero] at h0
    rw [h0] at hlen2
    simp [scopeMatches] at hlen2
  have hm0 : ¬ (scopeMatches (discover_windows env.enumResult) target scope
      (if scope then env.currentDesktop else -1)).length = 0 := by omega
  have hm1 : ¬ (scopeMatches (discover_windows env.enumResult) target scope
      (if scope then env.currentDesktop else -1)).length = 1 := by omega
  simp only [winleap_run, hm, hd, if_true, hws, if_false,
    select_instance_interactively, hm0, hm1, hgt, if_pos]
  norm_num

/-- Witness for the amended C1: three candidate windows against the
two-key selector string "12" fail with report (3, 2), exit 2, no
activation, for any pending events. -/
theorem selector_exhausted_amended_witness :
    (find_wmclass_for_mark ⟨[(1, toL "zen")], toL "12", false⟩ 1
        = some (toL "zen") ∧
      2 ≤ (scopeMatches (discover_windows (some [⟨10, some (toL "zen"), 0⟩,
          ⟨11, some (toL "zen"), 0⟩, ⟨12, some (toL "zen"), 0⟩])) (toL "zen")
          false (-1)).length) ∧
    winleap_run ⟨[(1, toL "zen")], toL "12", false⟩ 1 false
        ⟨true, some [⟨10, some (toL "zen"), 0⟩, ⟨11, some (toL "zen"), 0⟩,
          ⟨12, some (toL "zen"), 0⟩], 0, true, [InputEvent.key '1']⟩
      = some ⟨2, none, some (3, 2)⟩ := by
  refine ⟨⟨by decide, by decide⟩, ?_⟩
  have := selector_exhausted_amended ⟨[(1, toL "zen")], toL "12", false⟩ 1 false
    ⟨true, some [⟨10, some (toL "zen"), 0⟩, ⟨11, some (toL "zen"), 0⟩,
      ⟨12, some (toL "zen"), 0⟩], 0, true, [InputEvent.key '1']⟩ (toL "zen")
    (by decide) (by decide) (by decide) (by decide)
  simpa using this

/-- C6 counterexample: a configuration containing the malformed mark
lines "0=zen" (non-positive number), "abc=discord" (non-numeric) and
"7=" (empty class value) together with one valid line loads successfully
with exactly that one mark — the malformed mark lines are silently
skipped, not a fatal configuration error as claimed. -/
theorem malformed_mark_line_cex :
    read_config_file [toL "0=zen", toL "abc=discord", toL "7=", toL "1=zen"]
      = some ⟨[(1, toL "zen")], DEFAULT_INSTANCE_KEYS, false⟩ := by
  decide

/-- C6 (amended): a malformed mark line (non-numeric or non-positive mark
number, or empty class value) is silently skipped by read_config_file and
does not affect the loaded configuration; the load itself fails — and
then the program exits with code 1 using no partially-loaded
configuration — only on an invalid instance_keys or debug value or when
no valid mark line remains. -/
theorem malformed_mark_line_amended :
    (processLine (toL "0=zen") = .skip ∧ processLine (toL "abc=discord") = .skip ∧
      processLine (toL "7=") = .skip) ∧
    (∀ line ls, processLine line = .skip →
      read_config_file (line :: ls) = read_config_file ls) ∧
    (∀ lines mark scope env, read_config_file lines = none →
      winleap_main lines mark scope env = some ⟨1, none, none⟩) := by
  refine ⟨by decide, ?_, ?_⟩
  · intro line ls hskip
    have hgo : readGo (line :: ls) ⟨[], DEFAULT_INSTANCE_KEYS, false⟩
        = readGo ls ⟨[], DEFAULT_INSTANCE_KEYS, false⟩ := by
      conv_lhs => rw [readGo]
      simp [hskip]
    unfold read_config_file
    rw [hgo]
  · intro lines mark scope env h
    simp [winleap_main, h]

/-- Witness for the amended C6: prepending the skipped line "0=zen" to a
one-mark configuration leaves the load result unchanged. -/
theorem malformed_mark_line_amended_witness :
    processLine (toL "0=zen") = .skip ∧
    read_config_file [toL "0=zen", toL "2=discord"]
      = read_config_file [toL "2=discord"] :=
  ⟨by decide,
   malformed_mark_line_amended.2.1 (toL "0=zen") [toL "2=discord"] (by decide)⟩

/-- C7 counterexample: the enumeration succeeds but both windows are
filtered out (one has no class property, one an empty class); the run
exits with code 2 at the discovery layer — not, as claimed, with the
zero-matching-windows report and exit code 1. -/
theorem all_windows_filtered_exit_cex :
    winleap_run ⟨[(1, toL "zen")], toL "12", false⟩ 1 false
        ⟨true, some [⟨10, none, 0⟩, ⟨11, some [], 0⟩], 0, true, []⟩
      = some ⟨2, none, none⟩ ∧ (2 : Nat) ≠ 1 := by
  decide

/-- C7 (amended): discover_windows returns only a count, so a successful
enumeration in which every window is filtered out is indistinguishable
from a failed enumeration: both give zero windows and main exits with
code 2 and no activation.  The zero-matching-windows report with exit
code 1 happens exactly when discovery keeps at least one window but none
matches the mark's class in the requested scope. -/
theorem discovery_zero_windows_amended (cfg : Config) (mark : Nat) (scope : Bool)
    (env : Env) (target : List Char)
    (hm : find_wmclass_for_mark cfg mark = some target)
    (hd : env.displayOk = true) :
    (discover_windows env.enumResult = [] →
      winleap_run cfg mark scope env = some ⟨2, none, none⟩) ∧
    (discover_windows env.enumResult ≠ [] →
      scopeMatches (discover_windows env.enumResult) target scope
          (if scope then env.currentDesktop else -1) = [] →
      winleap_run cfg mark scope env = some ⟨1, none, none⟩) := by
  constructor
  · intro h0
    simp [winleap_run, hm, hd, h0]
  · intro hne hms
    have hws : ¬ (discover_windows env.enumResult).length = 0 := by
      simpa [List.length_eq_zero] using hne
    simp [winleap_run, hm, hd, hws, hms]

/-- Witness for the amended C7: part one at an enumeration whose only
window lacks a class, part two at a discovery of one emacs window when
the mark asks for zen. -/
theorem discovery_zero_windows_amended_witness :
    (find_wmclass_for_mark ⟨[(1, toL "zen")], toL "12", false⟩ 1
        = some (toL "zen") ∧
      discover_windows (some [⟨10, none, 5⟩]) = []) ∧
    winleap_run ⟨[(1, toL "zen")], toL "12", false⟩ 1 false
        ⟨true, some [⟨10, none, 5⟩], 0, true, []⟩
      = some ⟨2, none, none⟩ ∧
    winleap_run ⟨[(1, toL "zen")], toL "12", false⟩ 1 false
        ⟨true, some [⟨10, some (toL "emacs"), 0⟩], 0, true, []⟩
      = some ⟨1, none, none⟩ := by
  refine ⟨⟨by decide, by decide⟩, ?_, ?_⟩
  · exact (discovery_zero_windows_amended ⟨[(1, toL "zen")], toL "12", false⟩ 1
      false ⟨true, some [⟨10, none, 5⟩], 0, true, []⟩ (toL "zen")
      (by decide) (by decide)).1 (by decide)
  · exact (discovery_zero_windows_amended ⟨[(1, toL "zen")], toL "12", false⟩ 1
      false ⟨true, some [⟨10, some (toL "emacs"), 0⟩], 0, true, []⟩ (toL "zen")
      (by decide) (by decide)).2 (by decide) (by decide)

theorem delayFrom_succ (d : Nat) : ∀ k, delayFrom d (k + 1) = delayFrom d k * 3 / 2 := by
  intro k
  induction k generalizing d with
  | zero => rfl
  | succ n ih =>
    show delayFrom (d * 3 / 2) (n + 1) = delayFrom (d * 3 / 2) n * 3 / 2
    exact ih (d * 3 / 2)

/-- C8 counterexample: with the grab permanently held, grab_keyboard
performs exactly these nine waits; the sixth delay is 75937 us although
exactly 1.5 times the fifth delay would be 75937.5 us (the C computes
delay * 3 / 2 in integer arithmetic), so the delays are not multiplied by
exactly 1.5 after each retry as claimed: 2 * 75937 differs from
3 * 50625. -/
theorem grab_backoff_truncated_cex :
    (grab_keyboard (fun _ => GrabResult.alreadyGrabbed)).2.1
      = [10000, 15000, 22500, 33750, 50625, 75937, 113905, 170857, 256285] ∧
    (grab_keyboard (fun _ => GrabResult.alreadyGrabbed)).2.1.getD 5 0 * 2
      ≠ (grab_keyboard (fun _ => GrabResult.alreadyGrabbed)).2.1.getD 4 0 * 3 := by
  decide

/-- C8 (amended): grab_keyboard makes at most 10 attempts; every wait
follows an attempt that returned AlreadyGrabbed; the waits are exactly
the sequence starting at 10000 us with each next delay the previous
multiplied by 3 and divided by 2 in truncating integer arithmetic (1.5
times the previous, rounded down to a whole microsecond); any other
failure result ends the loop immediately in failure, and exhausting all
10 attempts on AlreadyGrabbed is a failure after exactly 10 attempts. -/
theorem grab_keyboard_contract (att : Nat → GrabResult) :
    (grab_keyboard att).2.2 ≤ 10 ∧
    (∀ j, j < (grab_keyboard att).2.1.length → att j = .alreadyGrabbed) ∧
    (grab_keyboard att).2.1 =
      (List.range (grab_keyboard att).2.1.length).map delaySeq ∧
    (delaySeq 0 = 10000 ∧ ∀ k, delaySeq (k + 1) = delaySeq k * 3 / 2) ∧
    ((∀ j, j < 10 → att j = .alreadyGrabbed) →
      (grab_keyboard att).1 = false ∧ (grab_keyboard att).2.2 = 10) ∧
    (∀ j, j < 10 → att j = .otherFail →
      (∀ k, k < j → att k = .alreadyGrabbed) →
      (grab_keyboard att).1 = false ∧ (grab_keyboard att).2.2 = j + 1) := by
  refine ⟨grabGo_attempts_le att 10 0 10000, ?_, ?_, ⟨rfl, ?_⟩, ?_, ?_⟩
  · intro j hj
    have := grabGo_retry_only_already att 10 0 10000 j hj
    simpa using this
  · exact grabGo_waits_geometric att 10 0 10000
  · intro k
    exact delayFrom_succ 10000 k
  · intro hall
    exact grabGo_exhaust att 10 0 10000 (fun j hj => by simpa using hall j hj)
  · intro j hj hof hbef
    exact grabGo_otherFail att 10 0 10000 j hj (by simpa using hof)
      (fun k hk => by simpa using hbef k hk)

/-- Witness for the amended C8: an attempt source failing with a
non-AlreadyGrabbed code on its first call makes grab_keyboard fail after
exactly one attempt with no waits. -/
theorem grab_keyboard_contract_witness :
    ((0 : Nat) < 10 ∧ (fun _ => GrabResult.otherFail) 0 = GrabResult.otherFail) ∧
    (grab_keyboard (fun _ => GrabResult.otherFail)).1 = false ∧
    (grab_keyboard (fun _ => GrabResult.otherFail)).2.2 = 0 + 1 :=
  ⟨⟨by decide, rfl⟩,
   (grab_keyboard_contract (fun _ => GrabResult.otherFail)).2.2.2.2.2 0
     (by decide) rfl (fun k hk => absurd hk (Nat.not_lt_zero k))⟩
